import Mathlib

/-!
Verification of the genro-storage core against its natural-language
specification.

Python strings are embedded as lists of characters (`PyStr`), so that the
string-splitting and joining done by the path resolver can be reasoned
about directly.  Python `str.split(sep)` and `sep.join(...)` are embedded
as `pySplitChar` and `pyJoin`; `str.split(sep, 1)` as `pySplitFirst`.
Fallible Python code is embedded with `Except`; backend state is embedded
as explicit finite maps.
-/

/-- A Python string, embedded as its list of characters. -/
abbrev PyStr := List Char

/-- Conversion from a Lean string literal to the embedded form. -/
def pystr (s : String) : PyStr := s.data

/-- Embedding of Python `s.split(c)` for a one-character separator `c`:
splitting the empty string yields `[""]`, and `n` separators yield
`n + 1` fields. -/
def pySplitChar (c : Char) : PyStr → List PyStr
  | [] => [[]]
  | x :: xs =>
    if x = c then [] :: pySplitChar c xs
    else
      match pySplitChar c xs with
      | [] => [[x]]
      | h :: t => (x :: h) :: t

/-- Embedding of Python `c.join(parts)` for a one-character separator. -/
def pyJoin (c : Char) : List PyStr → PyStr
  | [] => []
  | [x] => x
  | x :: xs => x ++ c :: pyJoin c xs

/-- Embedding of Python `s.split(c, 1)`: the part before the first
occurrence of `c`, and the rest (`none` when `c` does not occur). -/
def pySplitFirst (c : Char) : PyStr → PyStr × Option PyStr
  | [] => ([], none)
  | x :: xs =>
    if x = c then ([], some xs)
    else
      match pySplitFirst c xs with
      | (h, t) => (x :: h, t)

/-- Error raised by `StorageManager._normalize_path` (the spec's
`PathError`). -/
inductive PathError
  | traversal
deriving DecidableEq, Repr

/-- Embedding of `StorageManager._normalize_path` (manager.py): empty
paths pass through, a `..` segment raises, otherwise empty segments are
dropped and the rest re-joined with single `/`. -/
def normalize_path (path : PyStr) : Except PathError PyStr :=
  if path = [] then .ok []
  else if pystr ".." ∈ pySplitChar '/' path then .error .traversal
  else .ok (pyJoin '/' ((pySplitChar '/' path).filter (fun p => !p.isEmpty)))

/-- Errors `StorageManager.node` can raise while resolving an address. -/
inductive NodeError
  | mountNotFound
  | pathError
deriving DecidableEq, Repr

/-- Embedding of `StorageManager.node` called with a single address
string: split on the first `:`, check the mount against the configured
mount table, then normalize the relative path.  Returns the (mount,
normalized path) pair a `StorageNode` would be built from. -/
def node (mounts : List PyStr) (addr : PyStr) : Except NodeError (PyStr × PyStr) :=
  let mp := pySplitFirst ':' addr
  let path_components : List PyStr :=
    match mp.2 with
    | none => []
    | some p => if p = [] then [] else [p]
  if mp.1 ∉ mounts then .error .mountNotFound
  else
    match normalize_path (pyJoin '/' path_components) with
    | .error _ => .error .pathError
    | .ok p => .ok (mp.1, p)

-- Basic facts about the split/join embedding.

theorem pySplitChar_ne_nil (c : Char) (s : PyStr) : pySplitChar c s ≠ [] := by
  cases s with
  | nil => simp [pySplitChar]
  | cons x xs =>
    simp only [pySplitChar]
    split
    · simp
    · split <;> simp

theorem pySplitChar_of_not_mem (c : Char) (s : PyStr) (h : c ∉ s) :
    pySplitChar c s = [s] := by
  induction s with
  | nil => rfl
  | cons x xs ih =>
    have hx : ¬ x = c := fun hh => h (by simp [hh])
    have hxs : c ∉ xs := fun hh => h (List.mem_cons_of_mem x hh)
    simp only [pySplitChar, if_neg hx, ih hxs]

theorem pySplitChar_append (c : Char) (x r : PyStr) (hx : c ∉ x) :
    pySplitChar c (x ++ c :: r) = x :: pySplitChar c r := by
  induction x with
  | nil => simp [pySplitChar]
  | cons a as ih =>
    have ha : ¬ a = c := fun hh => hx (by simp [hh])
    have has : c ∉ as := fun hh => hx (List.mem_cons_of_mem a hh)
    have e : (a :: as) ++ c :: r = a :: (as ++ c :: r) := rfl
    rw [e]
    simp only [pySplitChar, if_neg ha, ih has]

theorem pySplitChar_pyJoin (c : Char) (l : List PyStr) (hne : l ≠ [])
    (hall : ∀ x ∈ l, c ∉ x) : pySplitChar c (pyJoin c l) = l := by
  induction l with
  | nil => exact absurd rfl hne
  | cons x xs ih =>
    match xs, ih with
    | [], _ =>
      simp only [pyJoin]
      exact pySplitChar_of_not_mem c x (hall x (by simp))
    | y :: ys, ih =>
      have hx : c ∉ x := hall x (by simp)
      simp only [pyJoin]
      rw [pySplitChar_append c x _ hx]
      congr 1
      exact ih (by simp) (fun z hz => hall z (List.mem_cons_of_mem x hz))

theorem mem_pySplitChar_not_mem (c : Char) (s : PyStr) :
    ∀ x ∈ pySplitChar c s, c ∉ x := by
  induction s with
  | nil =>
    intro x hx
    simp [pySplitChar] at hx
    simp [hx]
  | cons a as ih =>
    intro x hx
    by_cases hac : a = c
    · rw [show pySplitChar c (a :: as) = [] :: pySplitChar c as by
        simp [pySplitChar, hac]] at hx
      rcases List.mem_cons.mp hx with h | h
      · simp [h]
      · exact ih x h
    · match hsplit : pySplitChar c as with
      | [] => exact absurd hsplit (pySplitChar_ne_nil c as)
      | h' :: t =>
        have hx' : x ∈ (a :: h') :: t := by
          rw [show pySplitChar c (a :: as) = (a :: h') :: t by
            simp [pySplitChar, hac, hsplit]] at hx
          exact hx
        rcases List.mem_cons.mp hx' with h | h
        · subst h
          intro hmem
          rcases List.mem_cons.mp hmem with h | h
          · exact hac h.symm
          · exact ih h' (hsplit ▸ List.mem_cons_self h' t) h
        · exact ih x (hsplit ▸ List.mem_cons_of_mem h' h)

theorem pySplitFirst_fst_not_mem (c : Char) (s : PyStr) :
    c ∉ (pySplitFirst c s).1 := by
  induction s with
  | nil => simp [pySplitFirst]
  | cons x xs ih =>
    by_cases hx : x = c
    · simp [pySplitFirst, hx]
    · match hs : pySplitFirst c xs with
      | (h, t) =>
        rw [show (pySplitFirst c (x :: xs)).1 = x :: h by
          simp [pySplitFirst, hx, hs]]
        intro hmem
        rcases List.mem_cons.mp hmem with hcx | hcs
        · exact hx hcx.symm
        · rw [hs] at ih
          exact ih hcs

theorem pySplitFirst_append (c : Char) (h t : PyStr) (hh : c ∉ h) :
    pySplitFirst c (h ++ c :: t) = (h, some t) := by
  induction h with
  | nil => simp [pySplitFirst]
  | cons a as ih =>
    have ha : ¬ a = c := fun hx => hh (by simp [hx])
    have has : c ∉ as := fun hx => hh (List.mem_cons_of_mem a hx)
    have e : (a :: as) ++ c :: t = a :: (as ++ c :: t) := rfl
    rw [e]
    simp only [pySplitFirst, if_neg ha, ih has]

-- Properties of normalize_path.

theorem pyJoin_cons_ne_nil (c : Char) (x : PyStr) (xs : List PyStr)
    (hx : x ≠ []) : pyJoin c (x :: xs) ≠ [] := by
  cases xs with
  | nil => simpa [pyJoin] using hx
  | cons y ys => simp [pyJoin]

theorem normalize_path_segments (p q : PyStr)
    (h : normalize_path p = .ok q) :
    q = [] ∨ pySplitChar '/' q = (pySplitChar '/' p).filter (fun s => !s.isEmpty) := by
  by_cases hp : p = []
  · left
    simp [normalize_path, hp] at h
    exact h
  · by_cases hdd : pystr ".." ∈ pySplitChar '/' p
    · simp [normalize_path, hp, hdd] at h
    · simp only [normalize_path, if_neg hp, if_neg hdd, Except.ok.injEq] at h
      match hl : (pySplitChar '/' p).filter (fun s => !s.isEmpty) with
      | [] =>
        left
        rw [hl] at h
        simpa [pyJoin] using h.symm
      | x :: xs =>
        right
        rw [hl] at h
        rw [← h]
        rw [pySplitChar_pyJoin '/' (x :: xs) (by simp)]
        · exact hl.symm
        · intro z hz
          have hz' : z ∈ (pySplitChar '/' p).filter (fun s => !s.isEmpty) := by
            rw [hl]; exact hz
          exact mem_pySplitChar_not_mem '/' p z (List.mem_of_mem_filter hz')

theorem normalize_path_no_dotdot (p q : PyStr)
    (h : normalize_path p = .ok q) :
    pystr ".." ∉ pySplitChar '/' q := by
  rcases normalize_path_segments p q h with hq | hq
  · subst hq
    intro hmem
    simp [pySplitChar] at hmem
    exact absurd hmem.symm (by simp [pystr])
  · rw [hq]
    intro hmem
    have hdd : pystr ".." ∈ pySplitChar '/' p := List.mem_of_mem_filter hmem
    by_cases hp : p = []
    · subst hp
      simp [pySplitChar] at hdd
      exact absurd hdd.symm (by simp [pystr])
    · simp [normalize_path, hp, hdd] at h

theorem normalize_path_nonempty_segments (p q : PyStr)
    (h : normalize_path p = .ok q) :
    q = [] ∨ ∀ s ∈ pySplitChar '/' q, s ≠ [] := by
  rcases normalize_path_segments p q h with hq | hq
  · exact Or.inl hq
  · right
    intro s hs
    rw [hq] at hs
    have := (List.mem_filter.mp hs).2
    simpa using this

theorem pyJoin_pySplitChar (c : Char) (s : PyStr) :
    pyJoin c (pySplitChar c s) = s := by
  induction s with
  | nil => rfl
  | cons x xs ih =>
    obtain ⟨h, t, hs⟩ : ∃ h t, pySplitChar c xs = h :: t := by
      cases hsp : pySplitChar c xs with
      | nil => exact absurd hsp (pySplitChar_ne_nil c xs)
      | cons a b => exact ⟨a, b, rfl⟩
    rw [hs] at ih
    by_cases hx : x = c
    · have e : pySplitChar c (x :: xs) = [] :: h :: t := by
        simp [pySplitChar, hx, hs]
      rw [e]
      simp only [pyJoin]
      simp [ih, hx]
    · have e : pySplitChar c (x :: xs) = (x :: h) :: t := by
        simp [pySplitChar, hx, hs]
      rw [e]
      cases t with
      | nil =>
        simp only [pyJoin] at ih ⊢
        rw [ih]
      | cons u us =>
        simp only [pyJoin] at ih ⊢
        rw [← ih]
        simp

theorem normalize_path_idem (p q : PyStr)
    (h : normalize_path p = .ok q) : normalize_path q = .ok q := by
  by_cases hq : q = []
  · simp [normalize_path, hq]
  · have hdd := normalize_path_no_dotdot p q h
    rcases normalize_path_segments p q h with hq' | hq'
    · exact absurd hq' hq
    · simp only [normalize_path, if_neg hq, if_neg hdd]
      congr 1
      have hfilter : (pySplitChar '/' q).filter (fun s => !s.isEmpty)
          = pySplitChar '/' q := by
        apply List.filter_eq_self.mpr
        intro s hs
        rw [hq'] at hs
        exact (List.mem_filter.mp hs).2
      rw [hfilter, pyJoin_pySplitChar]

/-- C1: every address whose relative path contains a `..` segment is
rejected by `StorageManager.node` with the path-traversal error before
any backend I/O (the node is never constructed); any path that a node is
successfully built from contains no `..` segment, so no `..`-containing
path reaches a backend adapter; and normalization succeeds on every path
without a `..` segment. -/
theorem claim_c1_dotdot_rejected :
    (∀ (mounts : List PyStr) (addr m rest : PyStr),
        pySplitFirst ':' addr = (m, some rest) →
        pystr ".." ∈ pySplitChar '/' rest →
        m ∈ mounts →
        node mounts addr = .error .pathError)
    ∧ (∀ (mounts : List PyStr) (addr : PyStr) (m p : PyStr),
        node mounts addr = .ok (m, p) →
        pystr ".." ∉ pySplitChar '/' p)
    ∧ (∀ p : PyStr, pystr ".." ∉ pySplitChar '/' p →
        ∃ q, normalize_path p = .ok q) := by
  refine ⟨?_, ?_, ?_⟩
  · intro mounts addr m rest hsplit hdd hm
    have hrest : rest ≠ [] := by
      intro h0
      rw [h0] at hdd
      exact absurd hdd (by decide)
    simp only [node, hsplit]
    simp [hm, hrest, normalize_path, hdd, pyJoin]
  · intro mounts addr m p hok
    simp only [node] at hok
    split at hok
    · exact absurd hok (by simp)
    · split at hok
      · exact absurd hok (by simp)
      · rename_i p' heq
        have h2 : (pySplitFirst ':' addr).1 = m ∧ p' = p := by simpa using hok
        rw [h2.2] at heq
        exact normalize_path_no_dotdot _ p heq
  · intro p hdd
    by_cases hp : p = []
    · exact ⟨[], by simp [normalize_path, hp]⟩
    · exact ⟨pyJoin '/' ((pySplitChar '/' p).filter (fun s => !s.isEmpty)),
        by simp [normalize_path, hp, hdd]⟩

/-- Witness for C1 at concrete inputs: the address `m:a/../b` on a
configured mount `m` is rejected with the path error, and the
traversal-free path `a/b` normalizes successfully. -/
theorem claim_c1_dotdot_rejected_witness :
    node [pystr "m"] (pystr "m:a/../b") = Except.error NodeError.pathError ∧
    (∃ q, normalize_path (pystr "a/b") = Except.ok q) :=
  ⟨claim_c1_dotdot_rejected.1 [pystr "m"] (pystr "m:a/../b") (pystr "m")
      (pystr "a/../b") (by decide) (by decide) (by decide),
   claim_c1_dotdot_rejected.2.2 (pystr "a/b") (by decide)⟩

/-- C9: path parsing is idempotent.  Normalization is idempotent on
accepted paths, and re-parsing the re-joined normalized address
`mount:path` of any successfully parsed address yields the identical
(mount, path) pair. -/
theorem claim_c9_parse_idempotent :
    (∀ p q : PyStr, normalize_path p = .ok q → normalize_path q = .ok q)
    ∧ (∀ (mounts : List PyStr) (addr m p : PyStr),
        node mounts addr = .ok (m, p) →
        node mounts (m ++ ':' :: p) = .ok (m, p)) := by
  constructor
  · exact normalize_path_idem
  · intro mounts addr m p hok
    simp only [node] at hok
    split at hok
    · exact absurd hok (by simp)
    · rename_i hmem
      split at hok
      · exact absurd hok (by simp)
      · rename_i p' heq
        have hmp : (pySplitFirst ':' addr).1 = m ∧ p' = p := by simpa using hok
        obtain ⟨hm1, hp1⟩ := hmp
        rw [hp1] at heq
        have hmem' : m ∈ mounts := by
          rw [← hm1]
          exact not_not.mp hmem
        have hcolon : ':' ∉ m := hm1 ▸ pySplitFirst_fst_not_mem ':' addr
        have hsplit2 : pySplitFirst ':' (m ++ ':' :: p) = (m, some p) :=
          pySplitFirst_append ':' m p hcolon
        by_cases hp0 : p = []
        · simp only [node, hsplit2]
          simp [hmem', hp0, normalize_path, pyJoin]
        · have hidem := normalize_path_idem _ p heq
          simp only [node, hsplit2]
          simp [hmem', hp0, hidem, pyJoin]

/-- Witness for C9 at a concrete input: parsing `m:a//b` yields
`(m, a/b)`, and re-parsing the re-joined form `m:a/b` yields the same
pair. -/
theorem claim_c9_parse_idempotent_witness :
    node [pystr "m"] (pystr "m" ++ ':' :: pystr "a/b")
      = Except.ok (pystr "m", pystr "a/b") :=
  claim_c9_parse_idempotent.2 [pystr "m"] (pystr "m:a//b") (pystr "m")
    (pystr "a/b") (by rfl)

-- Dual-mode adapter: the smartsync wrapper (decorators.py).

/-- What one call to a smartsync-wrapped coroutine method returns: the
pending coroutine itself, or the result after driving it to completion
on a private event loop. -/
inductive SmartsyncOutcome
  | pending
  | completed
deriving DecidableEq, Repr

/-- Observable effect of one call to the `smartsync` wrapper: the
outcome, whether the running-loop probe (`asyncio.get_running_loop`) was
executed, and the value of the `_cached_has_loop` flag afterwards. -/
structure SmartsyncStep where
  outcome : SmartsyncOutcome
  probed : Bool
  cache : Bool
deriving DecidableEq, Repr

/-- Embedding of the `wrapper` closure produced by `smartsync`
(decorators.py): `cached` is the `_cached_has_loop` flag on entry and
`hasLoop` is whether `asyncio.get_running_loop()` would succeed on this
call.  A cached flag short-circuits to returning the coroutine without
probing; otherwise a successful probe caches and returns the coroutine,
and a failed probe runs the coroutine to completion without caching. -/
def smartsyncCall (cached : Bool) (hasLoop : Bool) : SmartsyncStep :=
  if cached then ⟨.pending, false, true⟩
  else if hasLoop then ⟨.pending, true, true⟩
  else ⟨.completed, true, false⟩

/-- Folding `smartsyncCall` over a sequence of call contexts, threading
the `_cached_has_loop` flag: returns the outcome of each call and the
final flag. -/
def smartsyncTrace (cached : Bool) : List Bool → List SmartsyncOutcome × Bool
  | [] => ([], cached)
  | ctx :: rest =>
    let step := smartsyncCall cached ctx
    let r := smartsyncTrace step.cache rest
    (step.outcome :: r.1, r.2)

/-- C3: once a smartsync call has observed a running event loop the
flag is cached and every later call returns the pending coroutine
without re-probing, even with no loop running; a call observing no loop
is driven to completion and never cached; and the flag only ever
transitions from false to true.  In particular the loop-first, no-loop
second sequence still returns a pending coroutine the second time. -/
theorem claim_c3_smartsync_cache :
    (∀ hasLoop : Bool,
        smartsyncCall true hasLoop = ⟨.pending, false, true⟩)
    ∧ smartsyncCall false true = ⟨.pending, true, true⟩
    ∧ smartsyncCall false false = ⟨.completed, true, false⟩
    ∧ (∀ cached hasLoop : Bool,
        (smartsyncCall cached hasLoop).cache = (cached || hasLoop))
    ∧ smartsyncTrace false [true, false]
        = ([.pending, .pending], true) := by
  refine ⟨?_, by decide, by decide, ?_, by decide⟩
  · intro hasLoop
    cases hasLoop <;> decide
  · intro cached hasLoop
    cases cached <;> cases hasLoop <;> decide

-- Copy engine: skip strategies (node.py).

/-- A Python exception raised while evaluating a skip comparison. -/
inductive PyExc
  | exc
deriving DecidableEq, Repr

/-- Returns true when the embedded evaluation raised an exception. -/
def raised {α : Type} : Except PyExc α → Bool
  | .error _ => true
  | .ok _ => false

/-- Skip strategies of `StorageNode.copy` (the `SkipStrategy` enum in
node.py). -/
inductive SkipStrategy
  | never
  | exists_
  | size
  | hash
  | custom
deriving DecidableEq, Repr

/-- Environment of one `_should_skip_file` call: whether the destination
exists, and the outcomes of evaluating the source/destination sizes, the
source/destination MD5 hashes, and the caller-supplied `skip_fn`
predicate (`none` when no `skip_fn` was given).  An `.error` value
embeds a raised Python exception. -/
structure SkipEnv where
  destExists : Bool
  srcSize : Except PyExc Nat
  destSize : Except PyExc Nat
  srcHash : Except PyExc PyStr
  destHash : Except PyExc PyStr
  skipFn : Option (Except PyExc Bool)

/-- Embedding of `StorageNode._should_skip_file` (node.py): never skip a
missing destination; `never` never skips; `exists` always skips;
`size`/`hash` skip on equal values and treat any exception in the
comparison as "do not skip"; `custom` skips when the predicate is given
and returns true, treating an exception the same way. -/
def should_skip_file (env : SkipEnv) (skip : SkipStrategy) : Bool × PyStr :=
  if !env.destExists then (false, [])
  else
    match skip with
    | .never => (false, [])
    | .exists_ => (true, pystr "destination exists")
    | .size =>
      match env.srcSize, env.destSize with
      | .ok a, .ok b =>
        if a = b then (true, pystr ("same size (" ++ toString a ++ " bytes)"))
        else (false, [])
      | _, _ => (false, [])
    | .hash =>
      match env.srcHash, env.destHash with
      | .ok a, .ok b =>
        if a = b then (true, pystr "same content (MD5: " ++ a.take 8 ++ pystr "...)")
        else (false, [])
      | _, _ => (false, [])
    | .custom =>
      match env.skipFn with
      | some (.ok true) => (true, pystr "custom function returned True")
      | some (.ok false) => (false, [])
      | some (.error _) => (false, [])
      | none => (false, [])

/-- Observable effects of one `_copy_file_with_skip` call: whether the
backend copy was performed on the destination, how many times `on_file`
was called, and the reasons passed to `on_skip`. -/
structure CopyTrace where
  backendCopied : Bool
  onFileCalls : Nat
  onSkipReasons : List PyStr
deriving DecidableEq, Repr

/-- Embedding of `StorageNode._copy_file_with_skip` (node.py): when the
skip decision is positive, invoke `on_skip` (if given) with the reason
and do not touch the destination; otherwise perform the backend copy and
invoke `on_file` (if given). -/
def copy_file_with_skip (env : SkipEnv) (skip : SkipStrategy)
    (hasOnFile hasOnSkip : Bool) : CopyTrace :=
  let sr := should_skip_file env skip
  if sr.1 then
    ⟨false, 0, if hasOnSkip then [sr.2] else []⟩
  else
    ⟨true, if hasOnFile then 1 else 0, []⟩

/-- C4: under skip strategy `size`, `hash` or `custom`, an exception
raised while evaluating the comparison means the file is not skipped and
the backend copy proceeds; the decision function is total, so the
exception never propagates. -/
theorem claim_c4_skip_comparison_failure :
    ∀ (env : SkipEnv) (hof hos : Bool), env.destExists = true →
      ((raised env.srcSize = true ∨ raised env.destSize = true) →
        should_skip_file env .size = (false, []) ∧
        (copy_file_with_skip env .size hof hos).backendCopied = true)
      ∧ ((raised env.srcHash = true ∨ raised env.destHash = true) →
        should_skip_file env .hash = (false, []) ∧
        (copy_file_with_skip env .hash hof hos).backendCopied = true)
      ∧ (∀ e, env.skipFn = some (.error e) →
        should_skip_file env .custom = (false, []) ∧
        (copy_file_with_skip env .custom hof hos).backendCopied = true) := by
  intro env hof hos hde
  refine ⟨?_, ?_, ?_⟩
  · intro h
    cases hsrc : env.srcSize with
    | error e =>
      constructor
      · simp [should_skip_file, hde, hsrc]
      · simp [copy_file_with_skip, should_skip_file, hde, hsrc]
    | ok a =>
      cases hdest : env.destSize with
      | error e =>
        constructor
        · simp [should_skip_file, hde, hsrc, hdest]
        · simp [copy_file_with_skip, should_skip_file, hde, hsrc, hdest]
      | ok b =>
        rw [hsrc, hdest] at h
        simp [raised] at h
  · intro h
    cases hsrc : env.srcHash with
    | error e =>
      constructor
      · simp [should_skip_file, hde, hsrc]
      · simp [copy_file_with_skip, should_skip_file, hde, hsrc]
    | ok a =>
      cases hdest : env.destHash with
      | error e =>
        constructor
        · simp [should_skip_file, hde, hsrc, hdest]
        · simp [copy_file_with_skip, should_skip_file, hde, hsrc, hdest]
      | ok b =>
        rw [hsrc, hdest] at h
        simp [raised] at h
  · intro e hfn
    constructor
    · simp [should_skip_file, hde, hfn]
    · simp [copy_file_with_skip, should_skip_file, hde, hfn]

/-- Witness for C4 at a concrete input: every comparison evaluation
raises, yet each strategy decides "do not skip" and the copy proceeds. -/
theorem claim_c4_skip_comparison_failure_witness :
    (should_skip_file
        ⟨true, .error .exc, .ok 1, .error .exc, .ok (pystr "h"),
          some (.error .exc)⟩ .size = (false, []) ∧
      (copy_file_with_skip
        ⟨true, .error .exc, .ok 1, .error .exc, .ok (pystr "h"),
          some (.error .exc)⟩ .size true true).backendCopied = true) ∧
    (should_skip_file
        ⟨true, .error .exc, .ok 1, .error .exc, .ok (pystr "h"),
          some (.error .exc)⟩ .custom = (false, []) ∧
      (copy_file_with_skip
        ⟨true, .error .exc, .ok 1, .error .exc, .ok (pystr "h"),
          some (.error .exc)⟩ .custom true true).backendCopied = true) :=
  ⟨(claim_c4_skip_comparison_failure
      ⟨true, .error .exc, .ok 1, .error .exc, .ok (pystr "h"),
        some (.error .exc)⟩ true true rfl).1 (Or.inl rfl),
   (claim_c4_skip_comparison_failure
      ⟨true, .error .exc, .ok 1, .error .exc, .ok (pystr "h"),
        some (.error .exc)⟩ true true rfl).2.2 .exc rfl⟩

/-- C6: a single-file copy with skip strategy `exists` and an existing
destination performs no backend write on the destination, invokes
`on_skip` exactly once with the reason "destination exists" (which
contains the substring "exists"), and never invokes `on_file`. -/
theorem claim_c6_skip_exists_frame :
    ∀ (env : SkipEnv) (hasOnFile : Bool), env.destExists = true →
      copy_file_with_skip env .exists_ hasOnFile true
        = ⟨false, 0, [pystr "destination exists"]⟩
      ∧ List.IsInfix (pystr "exists") (pystr "destination exists") := by
  intro env hasOnFile hde
  constructor
  · simp [copy_file_with_skip, should_skip_file, hde]
  · decide

/-- Witness for C6 at a concrete input. -/
theorem claim_c6_skip_exists_frame_witness :
    copy_file_with_skip
        ⟨true, .ok 3, .ok 4, .ok (pystr "a"), .ok (pystr "b"), none⟩
        .exists_ true true
      = ⟨false, 0, [pystr "destination exists"]⟩
    ∧ List.IsInfix (pystr "exists") (pystr "destination exists") :=
  claim_c6_skip_exists_frame
    ⟨true, .ok 3, .ok 4, .ok (pystr "a"), .ok (pystr "b"), none⟩ true rfl

-- Write preconditions: the resolved decorator (node_decorators.py).

/-- Events performed by the `resolved` wrapper around a write-family
method, in order. -/
inductive WriteEvent
  | checkSelfExists
  | mkdirParents (parent : PyStr)
  | checkParentExists (parent : PyStr)
  | performWrite
deriving DecidableEq, Repr

/-- Errors the `resolved` wrapper can raise before the wrapped write
runs. -/
inductive WriteError
  | fileNotFound
  | parentNotFound
deriving DecidableEq, Repr

/-- Per-node state consulted by the `resolved` wrapper: the `must_exist`
and `autocreate` instance attributes (`none` when absent or `None`), the
parent path computed by `_get_parent_path`, and what the backend would
report for the node and its parent. -/
structure NodePolicy where
  mustExistAttr : Option Bool
  autocreateAttr : Option Bool
  parentPath : PyStr
  selfExists : Bool
  parentExists : Bool

/-- Effective existence-check flag of the `resolved` wrapper for a
write-family method: the decorator's `must_exist` parameter when given,
else the instance attribute (write methods are not in `READ_METHODS`),
defaulting to false. -/
def mustExistEffective (mustExistParam : Option Bool) (env : NodePolicy) : Bool :=
  match mustExistParam with
  | some b => b
  | none => env.mustExistAttr.getD false

/-- Effective auto-create flag: the runtime `parents` keyword argument
when passed, else the instance `autocreate` attribute, else the
decorator's `autocreate` parameter. -/
def autocreateEffective (autocreateParam : Bool) (parentsKwarg : Option Bool)
    (env : NodePolicy) : Bool :=
  match parentsKwarg with
  | some b => b
  | none => env.autocreateAttr.getD autocreateParam

/-- Embedding of the `resolved` wrapper (node_decorators.py) applied to
a write-family method (`write`, `write_bytes`, `write_text`): optionally
check the node's own existence, then — when the parent path is non-empty
— either create the parent directories or verify the parent exists,
failing with the not-found error before the write when it does not;
finally run the wrapped write.  Returns the ordered event trace and the
error, if any. -/
def resolvedWrite (mustExistParam : Option Bool) (autocreateParam : Bool)
    (parentsKwarg : Option Bool) (env : NodePolicy) :
    List WriteEvent × Option WriteError :=
  let checkEvents : List WriteEvent :=
    if mustExistEffective mustExistParam env then [.checkSelfExists] else []
  if mustExistEffective mustExistParam env && !env.selfExists then
    (checkEvents, some .fileNotFound)
  else if env.parentPath ≠ [] then
    if autocreateEffective autocreateParam parentsKwarg env then
      (checkEvents ++ [.mkdirParents env.parentPath, .performWrite], none)
    else if env.parentExists then
      (checkEvents ++ [.checkParentExists env.parentPath, .performWrite], none)
    else
      (checkEvents ++ [.checkParentExists env.parentPath], some .parentNotFound)
  else
    (checkEvents ++ [.performWrite], none)

/-- C7: for a write on a node whose path has a non-empty parent (and
whose own existence check, if demanded, passes): when the auto-create
policy is in effect the parent directories are created immediately
before the write and the operation succeeds; otherwise the parent's
existence is verified, the write proceeds when it exists, and the
operation fails with the not-found error without the write ever
occurring when it does not. -/
theorem claim_c7_write_parent_resolution :
    ∀ (mustExistParam : Option Bool) (autocreateParam : Bool)
      (parentsKwarg : Option Bool) (env : NodePolicy),
      env.parentPath ≠ [] →
      (mustExistEffective mustExistParam env = true → env.selfExists = true) →
      (autocreateEffective autocreateParam parentsKwarg env = true →
        resolvedWrite mustExistParam autocreateParam parentsKwarg env
          = ((if mustExistEffective mustExistParam env then
                [WriteEvent.checkSelfExists] else [])
              ++ [.mkdirParents env.parentPath, .performWrite], none))
      ∧ (autocreateEffective autocreateParam parentsKwarg env = false →
          env.parentExists = true →
          resolvedWrite mustExistParam autocreateParam parentsKwarg env
            = ((if mustExistEffective mustExistParam env then
                  [WriteEvent.checkSelfExists] else [])
                ++ [.checkParentExists env.parentPath, .performWrite], none))
      ∧ (autocreateEffective autocreateParam parentsKwarg env = false →
          env.parentExists = false →
          WriteEvent.performWrite
              ∉ (resolvedWrite mustExistParam autocreateParam parentsKwarg env).1
          ∧ (resolvedWrite mustExistParam autocreateParam parentsKwarg env).2
              = some .parentNotFound) := by
  intro mep acp pk env hpp hself
  have hcond : (mustExistEffective mep env && !env.selfExists) = false := by
    cases hme : mustExistEffective mep env with
    | false => simp
    | true => simp [hself hme]
  refine ⟨?_, ?_, ?_⟩
  · intro hac
    simp [resolvedWrite, hcond, hpp, hac]
  · intro hac hpe
    simp [resolvedWrite, hcond, hpp, hac, hpe]
  · intro hac hpe
    have he : resolvedWrite mep acp pk env
        = ((if mustExistEffective mep env then
              [WriteEvent.checkSelfExists] else [])
            ++ [.checkParentExists env.parentPath], some .parentNotFound) := by
      simp [resolvedWrite, hcond, hpp, hac, hpe]
    constructor
    · rw [he]
      intro hmem
      rcases List.mem_append.mp hmem with hm | hm
      · by_cases hme : mustExistEffective mep env = true
        · rw [if_pos hme] at hm
          simp at hm
        · rw [if_neg hme] at hm
          simp at hm
      · simp at hm
    · rw [he]

/-- Witness for C7 at concrete inputs: the `AsyncStorageNode.write`
configuration (decorator autocreate on, no kwarg, no instance
attribute) creates the parent before writing, and the same node with
autocreate off and a missing parent fails without writing. -/
theorem claim_c7_write_parent_resolution_witness :
    resolvedWrite none true none ⟨none, none, pystr "a", false, false⟩
      = ([.mkdirParents (pystr "a"), .performWrite], none)
    ∧ (WriteEvent.performWrite
        ∉ (resolvedWrite none false none ⟨none, none, pystr "a", false, false⟩).1
      ∧ (resolvedWrite none false none ⟨none, none, pystr "a", false, false⟩).2
        = some .parentNotFound) :=
  ⟨by
    have h := (claim_c7_write_parent_resolution none true none
      ⟨none, none, pystr "a", false, false⟩ (by decide)
      (by intro h; simp [mustExistEffective] at h)).1 (by rfl)
    simpa [mustExistEffective] using h,
   (claim_c7_write_parent_resolution none false none
      ⟨none, none, pystr "a", false, false⟩ (by decide)
      (by intro h; simp [mustExistEffective] at h)).2.2 (by rfl) rfl⟩

-- Deletion: StorageNode.delete over the local backend (backends/local.py).

/-- Model of the filesystem state seen by `LocalStorage`: the file paths
and directory paths currently present (relative to the backend base). -/
structure LocalFS where
  files : List PyStr
  dirs : List PyStr
deriving Repr

/-- True when `q` lies in the subtree rooted at `p` (it is `p` itself or
has `p/` as a path prefix); this is what removing the tree at `p`
erases. -/
def underPath (p q : PyStr) : Bool := q == p || (p ++ ['/']).isPrefixOf q

/-- Error of the `ValueError` branch of `LocalStorage.delete` for a
non-recursive delete of a non-empty directory. -/
inductive DeleteError
  | notEmpty
deriving DecidableEq, Repr

/-- Embedding of `LocalStorage.delete` (backends/local.py): a missing
path is an idempotent no-op; a file is unlinked; a directory is removed
with its whole subtree when `recursive`, while a non-recursive delete
raises on a non-empty directory and removes an empty one. -/
def localStorage_delete (fs : LocalFS) (p : PyStr) (recursive : Bool) :
    Except DeleteError LocalFS :=
  if ¬ (p ∈ fs.files ∨ p ∈ fs.dirs) then .ok fs
  else if p ∈ fs.files then
    .ok ⟨fs.files.filter (fun q => !(q == p)), fs.dirs⟩
  else if p ∈ fs.dirs then
    if recursive then
      .ok ⟨fs.files.filter (fun q => !underPath p q),
           fs.dirs.filter (fun q => !underPath p q)⟩
    else if fs.files.any (fun q => underPath p q && !(q == p))
         || fs.dirs.any (fun q => underPath p q && !(q == p)) then
      .error .notEmpty
    else
      .ok ⟨fs.files, fs.dirs.filter (fun q => !(q == p))⟩
  else .ok fs

/-- Embedding of `StorageNode.delete` (node.py): it takes no arguments
and always calls the backend delete with `recursive=True`. -/
def storageNode_delete (fs : LocalFS) (p : PyStr) : Except DeleteError LocalFS :=
  localStorage_delete fs p true

theorem localStorage_delete_recursive_ok (fs : LocalFS) (p : PyStr) :
    ∃ fs', localStorage_delete fs p true = .ok fs' := by
  by_cases h1 : p ∈ fs.files ∨ p ∈ fs.dirs
  · by_cases h2 : p ∈ fs.files
    · exact ⟨⟨fs.files.filter (fun q => !(q == p)), fs.dirs⟩,
        by simp [localStorage_delete, h1, h2]⟩
    · by_cases h3 : p ∈ fs.dirs
      · exact ⟨⟨fs.files.filter (fun q => !underPath p q),
            fs.dirs.filter (fun q => !underPath p q)⟩,
          by simp [localStorage_delete, h1, h2, h3]⟩
      · exact ⟨fs, by simp [localStorage_delete, h1, h2, h3]⟩
  · exact ⟨fs, by simp [localStorage_delete, h1]⟩

/-- C10: node-level delete always calls the backend with
`recursive=True`, so it never raises (in particular not the non-empty
directory error); a non-existent path is an idempotent no-op; deleting a
directory removes its entire subtree; and the backend's non-empty error
branch is reachable only with `recursive=False`, which the node never
passes. -/
theorem claim_c10_node_delete_recursive :
    (∀ (fs : LocalFS) (p : PyStr), ∃ fs', storageNode_delete fs p = .ok fs')
    ∧ (∀ (fs : LocalFS) (p : PyStr),
        p ∉ fs.files → p ∉ fs.dirs → storageNode_delete fs p = .ok fs)
    ∧ (∀ (fs : LocalFS) (p : PyStr),
        p ∉ fs.files → p ∈ fs.dirs →
        storageNode_delete fs p
          = .ok ⟨fs.files.filter (fun q => !underPath p q),
                 fs.dirs.filter (fun q => !underPath p q)⟩
        ∧ (∀ q, underPath p q = true →
            q ∉ fs.files.filter (fun x => !underPath p x)
            ∧ q ∉ fs.dirs.filter (fun x => !underPath p x)))
    ∧ (∀ (fs : LocalFS) (p : PyStr) (r : Bool) (e : DeleteError),
        localStorage_delete fs p r = .error e → r = false) := by
  refine ⟨?_, ?_, ?_, ?_⟩
  · intro fs p
    exact localStorage_delete_recursive_ok fs p
  · intro fs p hf hd
    simp [storageNode_delete, localStorage_delete, hf, hd]
  · intro fs p hf hd
    constructor
    · simp [storageNode_delete, localStorage_delete, hf, hd]
    · intro q hq
      constructor
      · intro hmem
        have := (List.mem_filter.mp hmem).2
        simp [hq] at this
      · intro hmem
        have := (List.mem_filter.mp hmem).2
        simp [hq] at this
  · intro fs p r e herr
    cases r with
    | false => rfl
    | true =>
      obtain ⟨fs', hok⟩ := localStorage_delete_recursive_ok fs p
      rw [hok] at herr
      exact absurd herr (by simp)

/-- Witness for C10 at a concrete input: deleting the non-empty
directory `d` (containing file `d/f`) through the node succeeds and
empties the subtree, and deleting the missing path `x` is a no-op. -/
theorem claim_c10_node_delete_recursive_witness :
    storageNode_delete ⟨[pystr "d/f"], [pystr "d"]⟩ (pystr "d")
      = .ok ⟨List.filter (fun q => !underPath (pystr "d") q) [pystr "d/f"],
             List.filter (fun q => !underPath (pystr "d") q) [pystr "d"]⟩
    ∧ storageNode_delete ⟨[pystr "d/f"], [pystr "d"]⟩ (pystr "x")
      = .ok ⟨[pystr "d/f"], [pystr "d"]⟩ :=
  ⟨(claim_c10_node_delete_recursive.2.2.1 ⟨[pystr "d/f"], [pystr "d"]⟩
      (pystr "d") (by decide) (by decide)).1,
   claim_c10_node_delete_recursive.2.1 ⟨[pystr "d/f"], [pystr "d"]⟩
      (pystr "x") (by decide) (by decide)⟩

-- Node equality: StorageNode.__eq__ (node.py).

/-- Backend content state used for node comparison: an association list
from path to file content. -/
structure MemFS where
  files : List (PyStr × PyStr)

/-- Content stored at a path, when that path is a file. -/
def fsFind (fs : MemFS) (p : PyStr) : Option PyStr :=
  (fs.files.find? (fun e => e.1 == p)).map (fun e => e.2)

/-- Embedding of `StorageNode.isfile` over the content state. -/
def isfile (fs : MemFS) (p : PyStr) : Bool := (fsFind fs p).isSome

/-- Embedding of `StorageNode.md5hash`: the fingerprint is
content-faithful in the model (equal exactly on equal content); `none`
embeds the error raised on a missing or non-file path. -/
def md5hash (fs : MemFS) (p : PyStr) : Option PyStr := fsFind fs p

/-- A node handle: mount name and (normalized) relative path. -/
structure NodeRef where
  mount : PyStr
  path : PyStr

/-- Embedding of `StorageNode.fullpath`: `mount:path` (also for the
empty path). -/
def fullpath (n : NodeRef) : PyStr := n.mount ++ ':' :: n.path

/-- Embedding of `StorageNode.__eq__` (node.py): nodes with the same
fullpath are equal; otherwise both must be files, and their MD5 hashes
are compared, any hash failure yielding False.  `fsa`/`fsb` are the
backend states of the two nodes' mounts. -/
def storageNode_eq (fsa fsb : MemFS) (a b : NodeRef) : Bool :=
  if fullpath a = fullpath b then true
  else if ¬ (isfile fsa a.path = true ∧ isfile fsb b.path = true) then false
  else
    match md5hash fsa a.path, md5hash fsb b.path with
    | some h1, some h2 => h1 == h2
    | _, _ => false

theorem isfile_iff_md5 (fs : MemFS) (p : PyStr) :
    isfile fs p = true ↔ ∃ c, md5hash fs p = some c := by
  simp [isfile, md5hash, Option.isSome_iff_exists]

/-- Counterexample to C8: two nodes with the same mount but different
paths, each an existing file with identical content, compare equal under
`__eq__`, so node equality is not decided by the address alone. -/
theorem claim_c8_counterexample_content_eq :
    storageNode_eq ⟨[(pystr "a", pystr "x"), (pystr "b", pystr "x")]⟩
        ⟨[(pystr "a", pystr "x"), (pystr "b", pystr "x")]⟩
        ⟨pystr "m", pystr "a"⟩ ⟨pystr "m", pystr "b"⟩ = true
    ∧ (⟨pystr "m", pystr "a"⟩ : NodeRef).path
        ≠ (⟨pystr "m", pystr "b"⟩ : NodeRef).path := by
  constructor
  · decide
  · decide

/-- C8 (amended): node equality is address-based only in the forward
direction — equal mount and path imply equality — while in general
`__eq__` is content-based: two nodes are equal exactly when their
fullpaths coincide or both are existing files whose MD5 fingerprints
are equal. -/
theorem claim_c8_amended_eq_content :
    (∀ (fsa fsb : MemFS) (a b : NodeRef),
        a.mount = b.mount → a.path = b.path →
        storageNode_eq fsa fsb a b = true)
    ∧ (∀ (fsa fsb : MemFS) (a b : NodeRef),
        storageNode_eq fsa fsb a b = true ↔
          (fullpath a = fullpath b
           ∨ (isfile fsa a.path = true ∧ isfile fsb b.path = true
              ∧ md5hash fsa a.path = md5hash fsb b.path))) := by
  constructor
  · intro fsa fsb a b hm hp
    have hfp : fullpath a = fullpath b := by
      unfold fullpath
      rw [hm, hp]
    simp [storageNode_eq, hfp]
  · intro fsa fsb a b
    constructor
    · intro h
      unfold storageNode_eq at h
      by_cases hfp : fullpath a = fullpath b
      · exact Or.inl hfp
      · rw [if_neg hfp] at h
        by_cases hif : isfile fsa a.path = true ∧ isfile fsb b.path = true
        · rw [if_neg (not_not_intro hif)] at h
          obtain ⟨c1, hm1⟩ := (isfile_iff_md5 fsa a.path).mp hif.1
          obtain ⟨c2, hm2⟩ := (isfile_iff_md5 fsb b.path).mp hif.2
          rw [hm1, hm2] at h
          simp only [beq_iff_eq] at h
          exact Or.inr ⟨hif.1, hif.2, by rw [hm1, hm2, h]⟩
        · rw [if_pos hif] at h
          exact absurd h (by simp)
    · intro h
      rcases h with hfp | ⟨hf1, hf2, hmd⟩
      · simp [storageNode_eq, hfp]
      · unfold storageNode_eq
        by_cases hfp : fullpath a = fullpath b
        · rw [if_pos hfp]
        · rw [if_neg hfp, if_neg (not_not_intro ⟨hf1, hf2⟩)]
          obtain ⟨c1, hm1⟩ := (isfile_iff_md5 fsa a.path).mp hf1
          rw [hm1] at hmd
          rw [hm1, ← hmd]
          simp

/-- Witness for the amended C8 at concrete inputs: address equality
implies node equality, and the content-based characterization holds for
two same-content files at different paths. -/
theorem claim_c8_amended_eq_content_witness :
    storageNode_eq ⟨[]⟩ ⟨[]⟩ ⟨pystr "m", pystr "p"⟩ ⟨pystr "m", pystr "p"⟩ = true
    ∧ (storageNode_eq ⟨[(pystr "a", pystr "x")]⟩ ⟨[(pystr "b", pystr "x")]⟩
          ⟨pystr "m", pystr "a"⟩ ⟨pystr "n", pystr "b"⟩ = true ↔
        (fullpath ⟨pystr "m", pystr "a"⟩ = fullpath ⟨pystr "n", pystr "b"⟩
         ∨ (isfile ⟨[(pystr "a", pystr "x")]⟩ (pystr "a") = true
            ∧ isfile ⟨[(pystr "b", pystr "x")]⟩ (pystr "b") = true
            ∧ md5hash ⟨[(pystr "a", pystr "x")]⟩ (pystr "a")
                = md5hash ⟨[(pystr "b", pystr "x")]⟩ (pystr "b")))) :=
  ⟨claim_c8_amended_eq_content.1 ⟨[]⟩ ⟨[]⟩ ⟨pystr "m", pystr "p"⟩
      ⟨pystr "m", pystr "p"⟩ rfl rfl,
   claim_c8_amended_eq_content.2 ⟨[(pystr "a", pystr "x")]⟩
      ⟨[(pystr "b", pystr "x")]⟩ ⟨pystr "m", pystr "a"⟩ ⟨pystr "n", pystr "b"⟩⟩

-- Derived mounts with permission narrowing (backends/relative.py is
-- imported by the manager but absent from src/, so it is modelled from
-- the spec).

/-- Modelled from the spec: permission levels of a mount, ordered by
increasing privilege `readonly < readwrite < delete`. -/
inductive Permission
  | readonly
  | readwrite
  | delete
deriving DecidableEq, Repr

/-- Errors raised by the permission-narrowing facade. -/
inductive RelErr
  | permission
  | notFound
deriving DecidableEq, Repr

/-- Modelled from the spec: the derived-mount facade configured by
`StorageManager._configure_relative_mount` — a parent backend reference
plus a relative-path prefix and a permission level. -/
structure RelativeMountBackend where
  prefixPath : PyStr
  permissions : Permission

/-- Path on the parent backend for a path on the derived mount: the
relative prefix joined in front. -/
def rel_full_path (rm : RelativeMountBackend) (p : PyStr) : PyStr :=
  if rm.prefixPath = [] then p
  else if p = [] then rm.prefixPath
  else rm.prefixPath ++ '/' :: p

/-- Writing on the parent content state. -/
def fsWrite (fs : MemFS) (p d : PyStr) : MemFS :=
  ⟨(p, d) :: fs.files.filter (fun e => !(e.1 == p))⟩

/-- Deleting on the parent content state. -/
def fsDelete (fs : MemFS) (p : PyStr) : MemFS :=
  ⟨fs.files.filter (fun e => !(e.1 == p))⟩

/-- Modelled from the spec: reads always delegate to the parent at the
prefixed path, regardless of the permission level. -/
def relative_read (rm : RelativeMountBackend) (parent : MemFS) (p : PyStr) :
    Except RelErr PyStr :=
  match fsFind parent (rel_full_path rm p) with
  | some d => .ok d
  | none => .error .notFound

/-- Modelled from the spec: writes fail with the permission error on a
`readonly` mount and otherwise delegate. -/
def relative_write (rm : RelativeMountBackend) (parent : MemFS) (p d : PyStr) :
    Except RelErr MemFS :=
  match rm.permissions with
  | .readonly => .error .permission
  | _ => .ok (fsWrite parent (rel_full_path rm p) d)

/-- Modelled from the spec: deletes require the full `delete` level. -/
def relative_delete (rm : RelativeMountBackend) (parent : MemFS) (p : PyStr) :
    Except RelErr MemFS :=
  match rm.permissions with
  | .delete => .ok (fsDelete parent (rel_full_path rm p))
  | _ => .error .permission

/-- Modelled from the spec: mkdir is a mutation, rejected on `readonly`
and otherwise delegated (a no-op on the content state). -/
def relative_mkdir (rm : RelativeMountBackend) (parent : MemFS) (p : PyStr) :
    Except RelErr MemFS :=
  match rm.permissions with
  | .readonly => .error .permission
  | _ => .ok parent

/-- C2: on a `readonly` derived mount every write, delete and mkdir
fails with the permission error while a read of an existing underlying
file succeeds; a `readwrite` mount rejects exactly the delete; a
`delete` mount permits all of them. -/
theorem claim_c2_relative_mount_permissions :
    ∀ (rm : RelativeMountBackend) (parent : MemFS) (p d c : PyStr),
      (rm.permissions = .readonly →
        relative_write rm parent p d = .error .permission
        ∧ relative_delete rm parent p = .error .permission
        ∧ relative_mkdir rm parent p = .error .permission
        ∧ (fsFind parent (rel_full_path rm p) = some c →
            relative_read rm parent p = .ok c))
      ∧ (rm.permissions = .readwrite →
          relative_write rm parent p d
            = .ok (fsWrite parent (rel_full_path rm p) d)
          ∧ relative_mkdir rm parent p = .ok parent
          ∧ relative_delete rm parent p = .error .permission)
      ∧ (rm.permissions = .delete →
          relative_write rm parent p d
            = .ok (fsWrite parent (rel_full_path rm p) d)
          ∧ relative_mkdir rm parent p = .ok parent
          ∧ relative_delete rm parent p
            = .ok (fsDelete parent (rel_full_path rm p))) := by
  intro rm parent p d c
  refine ⟨?_, ?_, ?_⟩
  · intro hperm
    refine ⟨?_, ?_, ?_, ?_⟩
    · simp [relative_write, hperm]
    · simp [relative_delete, hperm]
    · simp [relative_mkdir, hperm]
    · intro hfind
      simp [relative_read, hfind]
  · intro hperm
    exact ⟨by simp [relative_write, hperm], by simp [relative_mkdir, hperm],
      by simp [relative_delete, hperm]⟩
  · intro hperm
    exact ⟨by simp [relative_write, hperm], by simp [relative_mkdir, hperm],
      by simp [relative_delete, hperm]⟩

/-- Witness for C2 at concrete inputs: a readonly derived mount `pub`
over prefix `pub` rejects a write and reads the existing underlying
file, and a readwrite one rejects the delete. -/
theorem claim_c2_relative_mount_permissions_witness :
    relative_write ⟨pystr "pub", .readonly⟩
        ⟨[(pystr "pub/a", pystr "hi")]⟩ (pystr "a") (pystr "zz")
      = .error .permission
    ∧ relative_read ⟨pystr "pub", .readonly⟩
        ⟨[(pystr "pub/a", pystr "hi")]⟩ (pystr "a") = .ok (pystr "hi")
    ∧ relative_delete ⟨pystr "pub", .readwrite⟩
        ⟨[(pystr "pub/a", pystr "hi")]⟩ (pystr "a") = .error .permission :=
  ⟨((claim_c2_relative_mount_permissions ⟨pystr "pub", .readonly⟩
      ⟨[(pystr "pub/a", pystr "hi")]⟩ (pystr "a") (pystr "zz")
      (pystr "hi")).1 rfl).1,
   ((claim_c2_relative_mount_permissions ⟨pystr "pub", .readonly⟩
      ⟨[(pystr "pub/a", pystr "hi")]⟩ (pystr "a") (pystr "zz")
      (pystr "hi")).1 rfl).2.2.2 (by rfl),
   ((claim_c2_relative_mount_permissions ⟨pystr "pub", .readwrite⟩
      ⟨[(pystr "pub/a", pystr "hi")]⟩ (pystr "a") (pystr "zz")
      (pystr "hi")).2.1 rfl).2.2⟩

-- Version compaction (implementation absent from src/ — only its tests
-- are present — so it is modelled from the spec).

/-- Modelled from the spec: a version record with its content
fingerprint (ETag); version lists are ordered oldest to newest. -/
structure VersionRecord where
  version_id : Nat
  etag : PyStr
deriving DecidableEq, Repr

/-- Walk after the first version: drop each version whose fingerprint
equals its immediate predecessor's in the original list. -/
def compactKeepGo (prev : VersionRecord) : List VersionRecord → List VersionRecord
  | [] => []
  | v :: rest =>
    if v.etag = prev.etag then compactKeepGo v rest
    else v :: compactKeepGo v rest

/-- Modelled from the spec: the versions kept by compaction — the walk
oldest→newest keeps every version whose fingerprint differs from its
immediate predecessor's. -/
def compactKeep : List VersionRecord → List VersionRecord
  | [] => []
  | v :: rest => v :: compactKeepGo v rest

/-- Modelled from the spec: `compact_versions(dry_run)` returns the
number of consecutive-duplicate versions (to be) removed together with
the version list after the call — unchanged in dry-run mode, compacted
otherwise. -/
def compact_versions (dryRun : Bool) (vs : List VersionRecord) :
    Nat × List VersionRecord :=
  (vs.length - (compactKeep vs).length,
   if dryRun then vs else compactKeep vs)

/-- C5: compaction deletes exactly the consecutive duplicates: on the
fingerprint sequence `[A, A, B, A]` it removes one version and keeps
`[A, B, A]` in order; dry-run returns the count without deleting; and a
single remaining version is never removed. -/
theorem claim_c5_compact_consecutive_duplicates :
    (∀ (A B : PyStr), A ≠ B → ∀ i1 i2 i3 i4 : Nat,
      (compact_versions false [⟨i1, A⟩, ⟨i2, A⟩, ⟨i3, B⟩, ⟨i4, A⟩]).1 = 1
      ∧ ((compact_versions false [⟨i1, A⟩, ⟨i2, A⟩, ⟨i3, B⟩, ⟨i4, A⟩]).2.map
          VersionRecord.etag) = [A, B, A])
    ∧ (∀ vs : List VersionRecord,
        compact_versions true vs = ((compact_versions false vs).1, vs))
    ∧ (∀ v : VersionRecord, compactKeep [v] = [v]) := by
  refine ⟨?_, ?_, ?_⟩
  · intro A B hAB i1 i2 i3 i4
    have hBA : ¬ (B = A) := fun h => hAB h.symm
    have hAB' : ¬ (A = B) := hAB
    constructor
    · simp [compact_versions, compactKeep, compactKeepGo, hBA, hAB']
    · simp [compact_versions, compactKeep, compactKeepGo, hBA, hAB']
  · intro vs
    simp [compact_versions]
  · intro v
    rfl

/-- Witness for C5 at concrete fingerprints `A ≠ B`. -/
theorem claim_c5_compact_consecutive_duplicates_witness :
    (compact_versions false
        [⟨1, pystr "A"⟩, ⟨2, pystr "A"⟩, ⟨3, pystr "B"⟩, ⟨4, pystr "A"⟩]).1 = 1
    ∧ ((compact_versions false
        [⟨1, pystr "A"⟩, ⟨2, pystr "A"⟩, ⟨3, pystr "B"⟩, ⟨4, pystr "A"⟩]).2.map
          VersionRecord.etag) = [pystr "A", pystr "B", pystr "A"] :=
  claim_c5_compact_consecutive_duplicates.1 (pystr "A") (pystr "B")
    (by decide) 1 2 3 4
